import Mathlib

/-!
Verification development for `collatepdf.py`, a tool that collates multiple
PDFs into a single PDF with a generated table of contents, divider pages,
per-page overlay banners and optional duplex (even-page) padding.

Python strings are embedded as `List Char`; Python's string methods
(`replace`, `split`, `join`, `strip`, `startswith`, `endswith`, `in`) are
given faithful executable counterparts.  PDF readers are abstracted by a
map `fs : List Char → Option Nat` from a file path to the page count of the
file when it exists (`iter_files` only skips nonexistent paths; an existing
file contributes its pages).  A page appended to the output writer is
represented by `OutPage`, recording for each page where it came from and
the exact overlay label composited onto it.
-/

/-- Python `s.startswith(pat)` on character lists. -/
def pyStartsWith : List Char → List Char → Bool
  | _, [] => true
  | [], _ :: _ => false
  | c :: s, p :: ps => c = p && pyStartsWith s ps

/-- Python `s.endswith(pat)` on character lists. -/
def pyEndsWith (s pat : List Char) : Bool :=
  pyStartsWith s.reverse pat.reverse

/-- Python `pat in s` (substring test) on character lists. -/
def pyContains : List Char → List Char → Bool
  | s, pat =>
    if pyStartsWith s pat then true
    else
      match s with
      | [] => false
      | _ :: rest => pyContains rest pat

/-- Python `s.strip()`: drop leading and trailing whitespace. -/
def pyStrip (s : List Char) : List Char :=
  ((s.dropWhile Char.isWhitespace).reverse.dropWhile Char.isWhitespace).reverse

/-- Python `s.replace('./', '')`: remove every non-overlapping occurrence of
the two-character pattern `./`, scanning left to right. -/
def pyRemoveDotSlash : List Char → List Char
  | [] => []
  | [c] => [c]
  | c :: d :: rest =>
    if c = '.' ∧ d = '/' then pyRemoveDotSlash rest
    else c :: pyRemoveDotSlash (d :: rest)

/-- Python `s.replace('/', ' — ')`: replace every `/` by an em-dash
surrounded by spaces. -/
def pySlashToDash (s : List Char) : List Char :=
  s.flatMap fun c => if c = '/' then " — ".data else [c]

/-- Python `s.split(sep)` for a single-character separator. -/
def pySplit (sep : Char) : List Char → List (List Char)
  | [] => [[]]
  | c :: rest =>
    match pySplit sep rest with
    | [] => []
    | r :: rs => if c = sep then [] :: r :: rs else (c :: r) :: rs

/-- Python `sep.join(parts)`. -/
def pyJoin (sep : List Char) : List (List Char) → List Char
  | [] => []
  | [x] => x
  | x :: y :: rest => x ++ sep ++ pyJoin sep (y :: rest)

/-- `get_pretty_name` from `collatepdf.py`:
`file_path.replace('./', '')`, then optionally `.replace('/', ' — ')`,
then `'.'.join(pretty_name.split('.')[:-1])` (drop the final extension). -/
def get_pretty_name (file_path : List Char) (replace_slashes : Bool) : List Char :=
  let p := pyRemoveDotSlash file_path
  let p := if replace_slashes then pySlashToDash p else p
  pyJoin ['.'] ((pySplit '.' p).dropLast)

/-- `ensure_even_pages` from `collatepdf.py`; takes the duplex flag and the
writer's current page count and returns the number `n` of blank pages
added (0 or 1): one blank page is added exactly when duplex mode is on and
the page count is odd. -/
def ensure_even_pages (duplex : Bool) (num_pages : Nat) : Nat :=
  if duplex && num_pages % 2 == 1 then 1 else 0

/-- The fixed header comment block written by `make_index`. -/
def make_index_header : List Char :=
  ("# Comments start with #.\n# Empty lines are ignored.\n# Index processing is stopped with `# STOP` on a line.\n# PDF files are included by putting their paths on each line.\n# Divider pages are included as follows: `@ Some title / Subtitle below`.\n\n").data

/-- One entry block written by `make_index` for a `.pdf` path:
`f"@ {get_pretty_name(file, replace_slashes=False)}\n{file}\n\n"`. -/
def index_block (file : List Char) : List Char :=
  "@ ".data ++ get_pretty_name file false ++ "\n".data ++ file ++ "\n\n".data

/-- `make_index` from `collatepdf.py`: the full text written to the index
file — the header comment block followed by one block per input path whose
name ends in `.pdf`, in input order. -/
def make_index (file_paths : List (List Char)) : List Char :=
  make_index_header ++
    (file_paths.filter (fun f => pyEndsWith f ".pdf".data)).flatMap index_block

/-- Result of `parse_index`: the accumulated `file_paths` list, together
with the list of configuration-directive payloads passed to `exec`
(recorded as the executed text, since their effect on `PARAMS` is decided
by that text alone). -/
structure ParseResult where
  file_paths : List (List Char)
  execed : List (List Char)
deriving DecidableEq, Repr

/-- `parse_index` from `collatepdf.py`, over the list of lines of the index
file.  Each line is stripped; a line starting with `# STOP` stops parsing;
empty lines are skipped; a line equal to `# BLANK` contributes an empty
path (a blank page); a non-comment line is a document path; a comment line
containing `PARAMS.` has `line[1:].strip()` executed as a configuration
mutation. -/
def parse_index : List (List Char) → ParseResult
  | [] => ⟨[], []⟩
  | l :: rest =>
    let line := pyStrip l
    if pyStartsWith line "# STOP".data then ⟨[], []⟩
    else if line = [] then parse_index rest
    else
      let blanks : List (List Char) := if line = "# BLANK".data then [[]] else []
      if pyStartsWith line "#".data = false then
        let r := parse_index rest
        ⟨blanks ++ line :: r.file_paths, r.execed⟩
      else
        let ex : List (List Char) :=
          if pyContains line "PARAMS.".data then [pyStrip (line.drop 1)] else []
        let r := parse_index rest
        ⟨blanks ++ r.file_paths, ex ++ r.execed⟩

/-- A page appended to the output accumulator by `collate_pdfs`:
a blank page (from a `# BLANK` entry or duplex padding), a divider page
carrying its title and composited overlay label, or page `idx` of the
document at `path`, resized and carrying its composited overlay label. -/
inductive OutPage where
  | blank : OutPage
  | divider (title : List Char) (overlay : List Char) : OutPage
  | doc (path : List Char) (idx : Nat) (overlay : List Char) : OutPage
deriving DecidableEq, Repr

/-- The mutable state of the `collate_pdfs` loop: the TOC entries
accumulated so far, the running page counter `cur_page`, and the pages
appended to the output writer so far. -/
structure CollateState where
  toc : List (List Char)
  cur_page : Nat
  out : List OutPage
deriving DecidableEq, Repr

/-- A TOC line `f"p. {n:d} — {text}"` as written by `collate_pdfs` for
both divider and document entries. -/
def toc_label (n : Nat) (text : List Char) : List Char :=
  "p. ".data ++ (Nat.repr n).data ++ " — ".data ++ text

/-- The overlay label built by `add_overlay`:
`f"p. {n} {'—' if name else ''} {name}"`. -/
def add_overlay (name : List Char) (n : Nat) : List Char :=
  "p. ".data ++ (Nat.repr n).data ++ " ".data ++
    (if name = [] then [] else "—".data) ++ " ".data ++ name

/-- One iteration of the `collate_pdfs` loop, processing a single entry of
`file_paths`.  `fs` abstracts the filesystem: `fs path = some m` when the
path exists and its PDF has `m` pages (`iter_files` yields a reader for
it), `none` when it does not exist (`iter_files` prints a diagnostic and
skips it).  Entries starting with `@` are dividers; empty entries are
blank pages; anything else is a document path. -/
def collateStep (fs : List Char → Option Nat) (duplex : Bool)
    (st : CollateState) (file_path : List Char) : CollateState :=
  if pyStartsWith file_path "@".data then
    -- Divider page: pad for duplex, render the divider, composite the
    -- overlay `add_overlay(page, "", n=n)`, emit TOC spacer + entry.
    let toc_entry := pyStrip (file_path.drop 1)
    let pad := ensure_even_pages duplex st.out.length
    let cur := st.cur_page + pad
    let n := cur + 1
    { toc := st.toc ++ [[], toc_label n toc_entry],
      cur_page := cur + 1,
      out := (st.out ++ List.replicate pad OutPage.blank) ++
        [OutPage.divider toc_entry (add_overlay [] n)] }
  else if file_path = [] then
    -- Blank page.
    { toc := st.toc, cur_page := st.cur_page + 1,
      out := st.out ++ [OutPage.blank] }
  else
    match fs file_path with
    | none => st  -- nonexistent path: diagnostic printed, entry skipped
    | some num_pages =>
      -- PDF to collate.
      let pretty_name := get_pretty_name file_path true
      let n := st.cur_page + 1
      { toc := st.toc ++ [toc_label n pretty_name],
        cur_page := st.cur_page + num_pages,
        out := st.out ++ (List.range num_pages).map (fun i =>
          OutPage.doc file_path i (add_overlay pretty_name (st.cur_page + i + 1))) }

/-- `collate_pdfs` from `collatepdf.py`: fold the loop body over the
entries, starting from an empty TOC, `cur_page = first_page` and an empty
output writer. -/
def collate_pdfs (fs : List Char → Option Nat) (file_paths : List (List Char))
    (first_page : Nat) (duplex : Bool) : CollateState :=
  file_paths.foldl (collateStep fs duplex) ⟨[], first_page, []⟩

/-- Number of divider entries (paths starting with `@`) in an index. -/
def numDividers : List (List Char) → Nat
  | [] => 0
  | p :: r => (if pyStartsWith p "@".data then 1 else 0) + numDividers r

/-- Number of blank entries (empty paths) in an index. -/
def numBlanks : List (List Char) → Nat
  | [] => 0
  | p :: r =>
    (if pyStartsWith p "@".data then 0 else if p = [] then 1 else 0) + numBlanks r

/-- Number of document entries whose path exists (openable). -/
def numDocs (fs : List Char → Option Nat) : List (List Char) → Nat
  | [] => 0
  | p :: r =>
    (if pyStartsWith p "@".data then 0
     else if p = [] then 0
     else if (fs p).isSome then 1 else 0) + numDocs fs r

/-- Sum of the page counts of the openable document entries. -/
def sumPages (fs : List Char → Option Nat) : List (List Char) → Nat
  | [] => 0
  | p :: r =>
    (if pyStartsWith p "@".data then 0
     else if p = [] then 0
     else (fs p).getD 0) + sumPages fs r

/-- Every empty (spacer) string in a TOC is immediately followed by a
further, non-empty entry. -/
def SpacerOk (t : List (List Char)) : Prop :=
  ∀ i (h : i < t.length), t[i] = ([] : List Char) →
    ∃ h2 : i + 1 < t.length, t[i + 1] ≠ ([] : List Char)

/-- The overlay label carried by the page at 0-based position `j` of the
output accumulator, for a run with starting counter `first_page`: divider
pages are labeled `add_overlay "" n` and document pages
`add_overlay pretty_name n`, both with `n = first_page + 1 + j`. -/
def pageLabelOk (first_page j : Nat) : OutPage → Prop
  | OutPage.blank => True
  | OutPage.divider _ ov => ov = add_overlay [] (first_page + 1 + j)
  | OutPage.doc path _ ov =>
      ov = add_overlay (get_pretty_name path true) (first_page + 1 + j)

example : get_pretty_name "a/b/c.pdf".data true = "a — b — c".data := by decide
example : get_pretty_name "a/b/c.pdf".data false = "a/b/c".data := by decide
example : get_pretty_name "a/./b.pdf".data true = "a — b".data := by decide
example : get_pretty_name "noext".data true = [] := by decide
example : add_overlay [] 2 = "p. 2  ".data := by decide
example : add_overlay "doc1".data 3 = "p. 3 — doc1".data := by decide
example :
    (collate_pdfs (fun p => if p = "d1.pdf".data then some 2 else if p = "d2.pdf".data then some 1 else none)
      ["@ Intro".data, "d1.pdf".data, "".data, "d2.pdf".data] 1 false).cur_page = 6 := by
  decide

/-! ### Helper lemmas on the string operations -/

theorem toc_label_isEmpty (n : Nat) (t : List Char) :
    (toc_label n t).isEmpty = false := rfl

theorem toc_label_ne_nil (n : Nat) (t : List Char) : toc_label n t ≠ [] := by
  intro h
  have h2 := toc_label_isEmpty n t
  rw [h] at h2
  simp at h2

theorem pyRemoveDotSlash_append (a b : List Char) (h : ('.' : Char) ∉ a) :
    pyRemoveDotSlash (a ++ b) = a ++ pyRemoveDotSlash b := by
  induction a with
  | nil => rfl
  | cons c a' ih =>
    have hc : c ≠ '.' := fun hc => h (by simp [hc])
    have h' : ('.' : Char) ∉ a' := fun hm => h (List.mem_cons_of_mem _ hm)
    rcases he : a' ++ b with _ | ⟨d, t⟩
    · have hab : a' = [] ∧ b = [] := List.append_eq_nil.mp he
      rcases hab with ⟨ha, hb⟩
      subst ha; subst hb
      simp [pyRemoveDotSlash]
    · have : (c :: a') ++ b = c :: d :: t := by rw [List.cons_append, he]
      rw [this]
      have hck : ¬(c = '.' ∧ d = '/') := fun hcd => hc hcd.1
      rw [pyRemoveDotSlash, if_neg hck, ← he, ih h', List.cons_append]

theorem pyRemoveDotSlash_no_dot (s : List Char) (h : ('.' : Char) ∉ s) :
    pyRemoveDotSlash s = s := by
  have h2 := pyRemoveDotSlash_append s [] h
  simpa [pyRemoveDotSlash] using h2

theorem pySlashToDash_no_dot (s : List Char) (h : ('.' : Char) ∉ s) :
    ('.' : Char) ∉ pySlashToDash s := by
  intro hm
  unfold pySlashToDash at hm
  rw [List.mem_flatMap] at hm
  obtain ⟨c, hc, hmem⟩ := hm
  by_cases h' : c = '/'
  · rw [if_pos h'] at hmem
    revert hmem
    decide
  · rw [if_neg h'] at hmem
    have hcd : '.' = c := by simpa using hmem
    exact h (by rwa [← hcd] at hc)

theorem pySplit_no_sep (sep : Char) (s : List Char) (h : sep ∉ s) :
    pySplit sep s = [s] := by
  induction s with
  | nil => rfl
  | cons c t ih =>
    have hc : c ≠ sep := fun hc => h (by simp [hc])
    have h' : sep ∉ t := fun hm => h (List.mem_cons_of_mem _ hm)
    rw [pySplit, ih h']
    simp [hc]

theorem get_pretty_name_no_dot (path : List Char) (rs : Bool)
    (h : ('.' : Char) ∉ path) : get_pretty_name path rs = [] := by
  cases rs with
  | false =>
    show pyJoin ['.'] ((pySplit '.' (pyRemoveDotSlash path)).dropLast) = []
    rw [pyRemoveDotSlash_no_dot path h, pySplit_no_sep '.' path h]
    rfl
  | true =>
    show pyJoin ['.']
      ((pySplit '.' (pySlashToDash (pyRemoveDotSlash path))).dropLast) = []
    rw [pyRemoveDotSlash_no_dot path h,
      pySplit_no_sep '.' _ (pySlashToDash_no_dot path h)]
    rfl

/-! ### Fold invariants of the collation loop -/

theorem collateStep_skip (fs : List Char → Option Nat) (duplex : Bool)
    (st : CollateState) (p : List Char)
    (hat : pyStartsWith p "@".data = false) (hne : p ≠ [])
    (hfs : fs p = none) : collateStep fs duplex st p = st := by
  simp [collateStep, hat, hne, hfs]

theorem foldl_cur_page (fs : List Char → Option Nat) (paths : List (List Char))
    (st : CollateState) :
    (paths.foldl (collateStep fs false) st).cur_page =
      st.cur_page + sumPages fs paths + numDividers paths + numBlanks paths := by
  induction paths generalizing st with
  | nil => simp [sumPages, numDividers, numBlanks]
  | cons p r ih =>
    rw [List.foldl_cons, ih]
    by_cases h1 : pyStartsWith p "@".data = true
    · simp [collateStep, h1, ensure_even_pages, sumPages, numDividers, numBlanks]
      omega
    · replace h1 : pyStartsWith p "@".data = false := by simpa using h1
      by_cases h2 : p = []
      · subst h2
        simp [collateStep, h1, sumPages, numDividers, numBlanks]
        omega
      · rcases h3 : fs p with _ | m
        · simp [collateStep, h1, h2, h3, sumPages, numDividers, numBlanks]
        · simp [collateStep, h1, h2, h3, sumPages, numDividers, numBlanks]
          omega

theorem foldl_toc_counts (fs : List Char → Option Nat) (duplex : Bool)
    (paths : List (List Char)) (st : CollateState) :
    ((paths.foldl (collateStep fs duplex) st).toc.countP fun e => !e.isEmpty) =
      (st.toc.countP fun e => !e.isEmpty) + numDocs fs paths + numDividers paths ∧
    ((paths.foldl (collateStep fs duplex) st).toc.countP fun e => e.isEmpty) =
      (st.toc.countP fun e => e.isEmpty) + numDividers paths := by
  induction paths generalizing st with
  | nil => simp [numDocs, numDividers]
  | cons p r ih =>
    rw [List.foldl_cons]
    rcases ih (collateStep fs duplex st p) with ⟨ihA, ihB⟩
    rw [ihA, ihB]
    by_cases h1 : pyStartsWith p "@".data = true
    · constructor <;>
        simp [collateStep, h1, numDocs, numDividers, List.countP_append,
          List.countP_cons, toc_label_isEmpty] <;> omega
    · replace h1 : pyStartsWith p "@".data = false := by simpa using h1
      by_cases h2 : p = []
      · subst h2
        constructor <;> simp [collateStep, h1, numDocs, numDividers]
      · rcases h3 : fs p with _ | m
        · constructor <;> simp [collateStep, h1, h2, h3, numDocs, numDividers]
        · constructor <;>
            · simp [collateStep, h1, h2, h3, numDocs, numDividers,
                List.countP_append, List.countP_cons, toc_label_isEmpty]
              try omega

theorem spacerOk_append_one (t : List (List Char)) (x : List Char)
    (hx : x ≠ []) (h : SpacerOk t) : SpacerOk (t ++ [x]) := by
  intro i hi he
  rw [List.length_append, List.length_singleton] at hi
  by_cases hit : i < t.length
  · rw [List.getElem_append_left hit] at he
    obtain ⟨h2, hne⟩ := h i hit he
    exact ⟨by simp; omega, by rw [List.getElem_append_left h2]; exact hne⟩
  · exfalso
    have : i = t.length := by omega
    subst this
    rw [List.getElem_append_right (Nat.le_refl _)] at he
    simp at he
    exact hx he

theorem spacerOk_append_two (t : List (List Char)) (x : List Char)
    (hx : x ≠ []) (h : SpacerOk t) : SpacerOk (t ++ [[], x]) := by
  intro i hi he
  have hlen : (t ++ [[], x]).length = t.length + 2 := by
    simp only [List.length_append, List.length_cons, List.length_nil]
  by_cases hit : i < t.length
  · rw [List.getElem_append_left hit] at he
    obtain ⟨h2, hne⟩ := h i hit he
    exact ⟨by omega, by rw [List.getElem_append_left h2]; exact hne⟩
  · by_cases hit2 : i = t.length
    · subst hit2
      refine ⟨by omega, ?_⟩
      rw [List.getElem_append_right (by omega : t.length ≤ t.length + 1)]
      simpa [Nat.add_sub_cancel_left] using hx
    · exfalso
      have hieq : i = t.length + 1 := by omega
      subst hieq
      rw [List.getElem_append_right (by omega : t.length ≤ t.length + 1)] at he
      exact hx (by simpa [Nat.add_sub_cancel_left] using he)

theorem foldl_spacerOk (fs : List Char → Option Nat) (duplex : Bool)
    (paths : List (List Char)) (st : CollateState) (h : SpacerOk st.toc) :
    SpacerOk ((paths.foldl (collateStep fs duplex) st).toc) := by
  induction paths generalizing st with
  | nil => exact h
  | cons p r ih =>
    rw [List.foldl_cons]
    apply ih
    by_cases h1 : pyStartsWith p "@".data = true
    · have : (collateStep fs duplex st p).toc =
          st.toc ++ [[], toc_label (st.cur_page + ensure_even_pages duplex st.out.length + 1)
            (pyStrip (p.drop 1))] := by
        simp [collateStep, h1]
      rw [this]
      exact spacerOk_append_two _ _ (toc_label_ne_nil _ _) h
    · replace h1 : pyStartsWith p "@".data = false := by simpa using h1
      by_cases h2 : p = []
      · subst h2
        simpa [collateStep, h1] using h
      · rcases h3 : fs p with _ | m
        · simpa [collateStep, h1, h2, h3] using h
        · have : (collateStep fs duplex st p).toc =
              st.toc ++ [toc_label (st.cur_page + 1) (get_pretty_name p true)] := by
            simp [collateStep, h1, h2, h3]
          rw [this]
          exact spacerOk_append_one _ _ (toc_label_ne_nil _ _) h

theorem collateStep_divider (fs : List Char → Option Nat) (dup : Bool)
    (st : CollateState) (p : List Char) (hA : pyStartsWith p "@".data = true) :
    collateStep fs dup st p =
      { toc := st.toc ++ [[], toc_label
          (st.cur_page + ensure_even_pages dup st.out.length + 1) (pyStrip (p.drop 1))],
        cur_page := st.cur_page + ensure_even_pages dup st.out.length + 1,
        out := (st.out ++ List.replicate (ensure_even_pages dup st.out.length) OutPage.blank) ++
          [OutPage.divider (pyStrip (p.drop 1))
            (add_overlay [] (st.cur_page + ensure_even_pages dup st.out.length + 1))] } := by
  simp [collateStep, hA]

theorem collateStep_blank (fs : List Char → Option Nat) (dup : Bool)
    (st : CollateState) :
    collateStep fs dup st [] =
      { toc := st.toc, cur_page := st.cur_page + 1,
        out := st.out ++ [OutPage.blank] } := by
  have h : pyStartsWith [] "@".data = false := rfl
  simp [collateStep, h]

theorem collateStep_doc (fs : List Char → Option Nat) (dup : Bool)
    (st : CollateState) (p : List Char) (m : Nat)
    (hA : pyStartsWith p "@".data = false) (hne : p ≠ []) (hfs : fs p = some m) :
    collateStep fs dup st p =
      { toc := st.toc ++ [toc_label (st.cur_page + 1) (get_pretty_name p true)],
        cur_page := st.cur_page + m,
        out := st.out ++ (List.range m).map (fun i =>
          OutPage.doc p i (add_overlay (get_pretty_name p true) (st.cur_page + i + 1))) } := by
  simp [collateStep, hA, hne, hfs]

theorem collateStep_inv (fs : List Char → Option Nat) (dup : Bool) (fp : Nat)
    (st : CollateState) (p : List Char)
    (h1 : st.cur_page = fp + st.out.length)
    (h2 : ∀ j (hj : j < st.out.length), pageLabelOk fp j st.out[j]) :
    (collateStep fs dup st p).cur_page = fp + (collateStep fs dup st p).out.length ∧
    ∀ j (hj : j < (collateStep fs dup st p).out.length),
      pageLabelOk fp j ((collateStep fs dup st p).out[j]) := by
  by_cases hA : pyStartsWith p "@".data = true
  · rw [collateStep_divider fs dup st p hA]
    constructor
    · simp only [List.length_append, List.length_replicate, List.length_cons,
        List.length_nil]
      omega
    · intro j hj
      simp only [List.length_append, List.length_replicate, List.length_cons,
        List.length_nil] at hj
      by_cases hj1 : j < st.out.length
      · have hjA : j < (st.out ++
            List.replicate (ensure_even_pages dup st.out.length) OutPage.blank).length := by
          simp only [List.length_append, List.length_replicate]; omega
        rw [List.getElem_append_left hjA, List.getElem_append_left hj1]
        exact h2 j hj1
      · by_cases hj2 : j < st.out.length + ensure_even_pages dup st.out.length
        · have hjA : j < (st.out ++
              List.replicate (ensure_even_pages dup st.out.length) OutPage.blank).length := by
            simp only [List.length_append, List.length_replicate]; omega
          rw [List.getElem_append_left hjA,
            List.getElem_append_right (by omega : st.out.length ≤ j)]
          simp [pageLabelOk]
        · have hlenA : j = (st.out ++
              List.replicate (ensure_even_pages dup st.out.length) OutPage.blank).length := by
            simp only [List.length_append, List.length_replicate]; omega
          rw [List.getElem_concat_length _ _ _ hlenA]
          show add_overlay []
              (st.cur_page + ensure_even_pages dup st.out.length + 1) =
            add_overlay [] (fp + 1 + j)
          congr 1
          have : j = st.out.length + ensure_even_pages dup st.out.length := by omega
          omega
  · replace hA : pyStartsWith p "@".data = false := by simpa using hA
    by_cases hne : p = []
    · subst hne
      rw [collateStep_blank fs dup st]
      constructor
      · simp only [List.length_append, List.length_cons, List.length_nil]
        omega
      · intro j hj
        simp only [List.length_append, List.length_cons, List.length_nil] at hj
        by_cases hj1 : j < st.out.length
        · rw [List.getElem_append_left hj1]
          exact h2 j hj1
        · have hje : j = st.out.length := by omega
          rw [List.getElem_concat_length _ _ _ hje]
          simp [pageLabelOk]
    · rcases hfs : fs p with _ | m
      · rw [collateStep_skip fs dup st p hA hne hfs]
        exact ⟨h1, h2⟩
      · rw [collateStep_doc fs dup st p m hA hne hfs]
        constructor
        · simp only [List.length_append, List.length_map, List.length_range]
          omega
        · intro j hj
          simp only [List.length_append, List.length_map, List.length_range] at hj
          by_cases hj1 : j < st.out.length
          · rw [List.getElem_append_left hj1]
            exact h2 j hj1
          · rw [List.getElem_append_right (by omega : st.out.length ≤ j)]
            simp only [List.getElem_map, List.getElem_range]
            show add_overlay (get_pretty_name p true)
                (st.cur_page + (j - st.out.length) + 1) =
              add_overlay (get_pretty_name p true) (fp + 1 + j)
            congr 1
            omega

theorem foldl_inv (fs : List Char → Option Nat) (dup : Bool) (fp : Nat)
    (paths : List (List Char)) (st : CollateState)
    (h1 : st.cur_page = fp + st.out.length)
    (h2 : ∀ j (hj : j < st.out.length), pageLabelOk fp j st.out[j]) :
    (paths.foldl (collateStep fs dup) st).cur_page =
      fp + (paths.foldl (collateStep fs dup) st).out.length ∧
    ∀ j (hj : j < (paths.foldl (collateStep fs dup) st).out.length),
      pageLabelOk fp j ((paths.foldl (collateStep fs dup) st).out[j]) := by
  induction paths generalizing st with
  | nil => exact ⟨h1, h2⟩
  | cons p r ih =>
    rw [List.foldl_cons]
    obtain ⟨g1, g2⟩ := collateStep_inv fs dup fp st p h1 h2
    exact ih (collateStep fs dup st p) g1 g2

theorem collate_inv (fs : List Char → Option Nat) (paths : List (List Char))
    (first_page : Nat) (duplex : Bool) :
    (collate_pdfs fs paths first_page duplex).cur_page =
      first_page + (collate_pdfs fs paths first_page duplex).out.length ∧
    ∀ j (hj : j < (collate_pdfs fs paths first_page duplex).out.length),
      pageLabelOk first_page j ((collate_pdfs fs paths first_page duplex).out[j]) := by
  unfold collate_pdfs
  exact foldl_inv fs duplex first_page paths ⟨[], first_page, []⟩ (by simp)
    (by intro j hj; simp at hj)

/-! ### Claims -/

/-- Claim C2: `ensure_even_pages` adds at most one blank page, and once it
returns, if duplex mode is on the writer's page count (`num_pages` plus the
pages added) is even — the function's trailing assertion never fails.  This
holds for every incoming page count, hence at every boundary where the
padding is applied (before a divider, after the cover, after the TOC). -/
theorem claim_C2 (duplex : Bool) (num_pages : Nat) :
    ensure_even_pages duplex num_pages ≤ 1 ∧
    (duplex = true → (num_pages + ensure_even_pages duplex num_pages) % 2 = 0) := by
  unfold ensure_even_pages
  cases duplex with
  | false => simp
  | true =>
    by_cases h : num_pages % 2 = 1
    · have h2 : (true && (num_pages % 2 == 1)) = true := by simp [h]
      rw [h2, if_pos rfl]
      exact ⟨Nat.le_refl 1, fun _ => by omega⟩
    · have h2 : (true && (num_pages % 2 == 1)) = false := by simp [h]
      rw [h2]
      simp only [Bool.false_eq_true, if_false]
      exact ⟨Nat.zero_le 1, fun _ => by omega⟩

/-- Witness for C2 at a concrete odd page count. -/
theorem claim_C2_witness :
    ensure_even_pages true 3 ≤ 1 ∧ (3 + ensure_even_pages true 3) % 2 = 0 :=
  ⟨(claim_C2 true 3).1, (claim_C2 true 3).2 rfl⟩

/-- Claim C1 counterexample: for the index consisting of one Blank entry
with `first_page = 1` and duplex off, the final counter is `2`, while the
claimed formula `first_page - 1 + (sum of page counts) + v + k` yields `1`;
the claim's counter equation is off by one. -/
theorem claim_C1_counterexample :
    (collate_pdfs (fun _ => none) [[]] 1 false).cur_page = 2 ∧
    1 - 1 + sumPages (fun _ => none) [[]] + numDividers [[]] + numBlanks [[]] = 1 ∧
    (2 : Nat) ≠ 1 := by decide

/-- Claim C1 (amended): with duplex off, `collate_pdfs` produces a TOC with
exactly `d + v` non-empty entries plus `v` empty spacer strings, each empty
spacer immediately followed by a further non-empty entry (the divider's),
and the running counter after processing all entries equals
`first_page + (sum of all document page counts) + v + k` (not
`first_page - 1 + ...` as originally claimed). -/
theorem claim_C1_amended (fs : List Char → Option Nat) (paths : List (List Char))
    (first_page : Nat) :
    (collate_pdfs fs paths first_page false).cur_page =
      first_page + sumPages fs paths + numDividers paths + numBlanks paths ∧
    ((collate_pdfs fs paths first_page false).toc.countP fun e => !e.isEmpty) =
      numDocs fs paths + numDividers paths ∧
    ((collate_pdfs fs paths first_page false).toc.countP fun e => e.isEmpty) =
      numDividers paths ∧
    SpacerOk ((collate_pdfs fs paths first_page false).toc) := by
  refine ⟨?_, ?_, ?_, ?_⟩
  · exact foldl_cur_page fs paths ⟨[], first_page, []⟩
  · have h := (foldl_toc_counts fs false paths ⟨[], first_page, []⟩).1
    simpa using h
  · have h := (foldl_toc_counts fs false paths ⟨[], first_page, []⟩).2
    simpa using h
  · exact foldl_spacerOk fs false paths ⟨[], first_page, []⟩
      (by intro i hi he; simp at hi)

/-- Witness for C1 (amended) on a one-divider index. -/
theorem claim_C1_witness :
    (collate_pdfs (fun _ => none) ["@ T".data] 1 false).cur_page = 2 ∧
    (collate_pdfs (fun _ => none) ["@ T".data] 1 false).toc.get ⟨1, by decide⟩ ≠ [] := by
  have h := claim_C1_amended (fun _ => none) ["@ T".data] 1
  refine ⟨?_, ?_⟩
  · rw [h.1]
    decide
  · obtain ⟨h2, hne⟩ := h.2.2.2 0 (by decide) (by decide)
    rw [List.get_eq_getElem]
    exact hne

/-- Claim C3 counterexample: with `first_page = 2` (e.g. after a one-page
cover) and one Blank entry, the counter between entries is `3`, which is
neither the count of pages already appended (`1`) nor the one-based index
of the next page to be emitted (`2`). -/
theorem claim_C3_counterexample :
    (collate_pdfs (fun _ => none) [[]] 2 false).cur_page = 3 ∧
    (collate_pdfs (fun _ => none) [[]] 2 false).out.length = 1 ∧
    (3 : Nat) ≠ 1 ∧ (3 : Nat) ≠ 1 + 1 := by decide

/-- Claim C3 (amended): the running counter always equals `first_page` plus
the number of pages already appended to the output accumulator; hence, in
the default `first_page = 1` case, it is the one-based index of the next
page to be emitted (pages appended plus one).  Since every point between
two entries is the final state of a prefix of the index, quantifying over
all indices covers every intermediate point. -/
theorem claim_C3_amended (fs : List Char → Option Nat) (paths : List (List Char))
    (duplex : Bool) :
    (collate_pdfs fs paths 1 duplex).cur_page =
      (collate_pdfs fs paths 1 duplex).out.length + 1 := by
  have h := (collate_inv fs paths 1 duplex).1
  omega

/-- Claim C4: `parse_index` returns exactly the entries derived from lines
strictly before the first line whose stripped form starts with `# STOP`:
both the accumulated paths and the executed configuration directives agree
with those of the truncated input, and consequently the collated output is
identical. -/
theorem claim_C4 (lines : List (List Char)) (fs : List Char → Option Nat)
    (first_page : Nat) (duplex : Bool) :
    parse_index lines =
      parse_index (lines.takeWhile fun l =>
        !(pyStartsWith (pyStrip l) "# STOP".data)) ∧
    collate_pdfs fs (parse_index lines).file_paths first_page duplex =
      collate_pdfs fs (parse_index (lines.takeWhile fun l =>
        !(pyStartsWith (pyStrip l) "# STOP".data))).file_paths first_page duplex := by
  have key : ∀ ls : List (List Char),
      parse_index ls = parse_index (ls.takeWhile fun l =>
        !(pyStartsWith (pyStrip l) "# STOP".data)) := by
    intro ls
    induction ls with
    | nil => rfl
    | cons l rest ih =>
      by_cases h : pyStartsWith (pyStrip l) "# STOP".data = true
      · rw [List.takeWhile_cons, h]
        simp only [Bool.not_true, if_false]
        simp [parse_index, h]
      · replace h : pyStartsWith (pyStrip l) "# STOP".data = false := by
          simpa using h
        rw [List.takeWhile_cons, h]
        simp only [Bool.not_false, if_true]
        rw [parse_index, parse_index]
        simp only [h, ih]
  exact ⟨key lines, by rw [key lines]⟩

/-- Claim C5: a Document entry whose path does not exist is skipped by
`iter_files`, so the collated result (body pages, TOC entries and final
counter) is identical to that of the same index with the entry removed;
only the printed diagnostic differs. -/
theorem claim_C5 (fs : List Char → Option Nat) (pre post : List (List Char))
    (p : List Char) (first_page : Nat) (duplex : Bool)
    (hat : pyStartsWith p "@".data = false) (hne : p ≠ [])
    (hfs : fs p = none) :
    collate_pdfs fs (pre ++ p :: post) first_page duplex =
      collate_pdfs fs (pre ++ post) first_page duplex := by
  unfold collate_pdfs
  rw [List.foldl_append, List.foldl_append, List.foldl_cons,
    collateStep_skip fs duplex _ p hat hne hfs]

/-- Witness for C5 with one missing document path. -/
theorem claim_C5_witness :
    collate_pdfs (fun _ => none) ["missing.pdf".data] 1 false =
      collate_pdfs (fun _ => none) [] 1 false :=
  claim_C5 (fun _ => none) [] [] "missing.pdf".data 1 false (by decide)
    (by decide) rfl

/-- Claim C6 counterexample: `get_pretty_name` removes the interior `./` of
`a/./b.pdf` (Python's `replace('./', '')` is not restricted to a leading
occurrence), so the result is `a — b` instead of the `a — . — b` the claim
("strips a leading `./` (and only a leading one)") would give. -/
theorem claim_C6_counterexample :
    get_pretty_name "a/./b.pdf".data true = "a — b".data ∧
    "a — b".data ≠ "a — . — b".data := by decide

/-- Claim C6 (amended): `get_pretty_name` removes every occurrence of the
substring `./` (scanning left to right, not only a leading one), replaces
`/` by ` — ` when slash replacement is on, and drops the final extension;
in particular a leading `./` is removed, any `./` preceded by dot-free text
is removed, and `get_pretty_name("a/b/c.pdf")` equals `"a — b — c"` with
slash replacement on and `"a/b/c"` with it off. -/
theorem claim_C6_amended :
    (get_pretty_name "a/b/c.pdf".data true = "a — b — c".data ∧
     get_pretty_name "a/b/c.pdf".data false = "a/b/c".data) ∧
    (∀ (b : List Char) (rs : Bool),
      get_pretty_name ('.' :: '/' :: b) rs = get_pretty_name b rs) ∧
    (∀ (a b : List Char) (rs : Bool), ('.' : Char) ∉ a →
      get_pretty_name (a ++ '.' :: '/' :: b) rs = get_pretty_name (a ++ b) rs) := by
  have hstep : ∀ b : List Char,
      pyRemoveDotSlash ('.' :: '/' :: b) = pyRemoveDotSlash b := by
    intro b
    rw [pyRemoveDotSlash]
    simp
  refine ⟨⟨by decide, by decide⟩, ?_, ?_⟩
  · intro b rs
    simp only [get_pretty_name, hstep b]
  · intro a b rs ha
    simp only [get_pretty_name,
      pyRemoveDotSlash_append a ('.' :: '/' :: b) ha,
      pyRemoveDotSlash_append a b ha, hstep b]

/-- Witness for C6 (amended): an interior `./` after a dot-free prefix is
removed. -/
theorem claim_C6_witness :
    get_pretty_name ("x/".data ++ '.' :: '/' :: "y.pdf".data) true =
      get_pretty_name ("x/".data ++ "y.pdf".data) true :=
  claim_C6_amended.2.2 "x/".data "y.pdf".data true (by decide)

/-- Claim C7 counterexample: the overlay composited onto a divider page
carries `"p. {n}"` followed by two spaces (the empty name still contributes
the separator spaces of the f-string), not exactly `"p. {n}"`. -/
theorem claim_C7_counterexample :
    (collate_pdfs (fun _ => none) ["@ T".data] 1 false).out =
      [OutPage.divider "T".data "p. 2  ".data] ∧
    "p. 2  ".data ≠ "p. 2".data := by decide

/-- Claim C7 (amended): every divider page in the collated output carries
the overlay `add_overlay "" n` with `n` its display page number, which is
the text `"p. {n}"` followed by two spaces — because the name passed to
`add_overlay` is empty, no em-dash/name suffix is appended (only the two
f-string separator spaces remain). -/
theorem claim_C7_amended (fs : List Char → Option Nat) (paths : List (List Char))
    (first_page : Nat) (duplex : Bool) (j : Nat)
    (hj : j < (collate_pdfs fs paths first_page duplex).out.length)
    (title ov : List Char)
    (hdiv : (collate_pdfs fs paths first_page duplex).out[j] =
      OutPage.divider title ov) :
    ov = add_overlay [] (first_page + 1 + j) ∧
    ov = "p. ".data ++ (Nat.repr (first_page + 1 + j)).data ++
      " ".data ++ " ".data := by
  have h := (collate_inv fs paths first_page duplex).2 j hj
  rw [hdiv] at h
  have h1 : ov = add_overlay [] (first_page + 1 + j) := h
  refine ⟨h1, ?_⟩
  rw [h1]
  simp [add_overlay]

/-- Witness for C7 (amended) on a one-divider index. -/
theorem claim_C7_witness :
    ("p. 2  ".data : List Char) = add_overlay [] (1 + 1 + 0) ∧
    ("p. 2  ".data : List Char) = "p. ".data ++ (Nat.repr (1 + 1 + 0)).data ++
      " ".data ++ " ".data :=
  claim_C7_amended (fun _ => none) ["@ T".data] 1 false 0 (by decide)
    "T".data "p. 2  ".data (by decide)

set_option maxRecDepth 100000 in
/-- Claim C8 counterexample: for the input `./a.pdf`, `make_index` writes
the block `@ a\n./a.pdf\n\n` — the title has the `./` removed by
`get_pretty_name` — not `@ ./a\n./a.pdf\n\n` as "the path with its final
extension removed" would give. -/
theorem claim_C8_counterexample :
    make_index ["./a.pdf".data] = make_index_header ++ "@ a\n./a.pdf\n\n".data ∧
    make_index_header ++ "@ a\n./a.pdf\n\n".data ≠
      make_index_header ++ "@ ./a\n./a.pdf\n\n".data := by decide

set_option maxRecDepth 100000 in
/-- Claim C8 (amended): `make_index` writes the header comment block
followed by, for each path ending in `.pdf` in input order, one block
`@ <title>\n<path>\n\n` where `<title>` is the path with every occurrence
of `./` removed and its final extension removed, with no path-separator
substitution (`replace_slashes=False`); paths not ending in `.pdf`
produce no block. -/
theorem claim_C8_amended :
    (∀ (pre post : List (List Char)) (q : List Char),
      pyEndsWith q ".pdf".data = false →
      make_index (pre ++ q :: post) = make_index (pre ++ post)) ∧
    (∀ (pre : List (List Char)) (f : List Char),
      pyEndsWith f ".pdf".data = true →
      make_index (pre ++ [f]) = make_index pre ++ index_block f) ∧
    make_index ["a/b.pdf".data, "c.txt".data] =
      make_index_header ++ "@ a/b\na/b.pdf\n\n".data := by
  refine ⟨?_, ?_, by decide⟩
  · intro pre post q h
    simp [make_index, List.filter_append, List.filter_cons, h]
  · intro pre f h
    simp [make_index, List.filter_append, List.filter_cons, h,
      List.flatMap_append, List.append_assoc]

/-- Witness for C8 (amended): a non-`.pdf` path produces no block. -/
theorem claim_C8_witness :
    make_index ["c.txt".data] = make_index [] :=
  claim_C8_amended.1 [] [] "c.txt".data (by decide)

/-- Claim C9: at every point between processing two index entries (i.e. in
the state reached after any index prefix), `cur_page` equals `first_page`
plus the number of pages appended so far to the output accumulator
(duplex padding pages included), and every page appended with an overlay
(divider or document page) at 0-based position `j` is labeled with
`n = first_page + 1 + j`, i.e. one more than the pages in the accumulator
before it plus `first_page`. -/
theorem claim_C9 (fs : List Char → Option Nat) (paths : List (List Char))
    (first_page : Nat) (duplex : Bool) :
    (collate_pdfs fs paths first_page duplex).cur_page =
      first_page + (collate_pdfs fs paths first_page duplex).out.length ∧
    ∀ j (hj : j < (collate_pdfs fs paths first_page duplex).out.length),
      pageLabelOk first_page j ((collate_pdfs fs paths first_page duplex).out[j]) :=
  collate_inv fs paths first_page duplex

/-- Witness for C9 on a one-document index. -/
theorem claim_C9_witness :
    (collate_pdfs (fun q => if q = "d.pdf".data then some 1 else none)
      ["d.pdf".data] 1 false).cur_page =
      1 + (collate_pdfs (fun q => if q = "d.pdf".data then some 1 else none)
        ["d.pdf".data] 1 false).out.length ∧
    pageLabelOk 1 0 ((collate_pdfs (fun q => if q = "d.pdf".data then some 1 else none)
      ["d.pdf".data] 1 false).out.get ⟨0, by decide⟩) := by
  have h := claim_C9 (fun q => if q = "d.pdf".data then some 1 else none)
    ["d.pdf".data] 1 false
  refine ⟨h.1, ?_⟩
  have h2 := h.2 0 (by decide)
  rw [List.get_eq_getElem]
  exact h2

/-- Claim C10: a path containing no `.` is given the empty pretty name
(the whole name is discarded as the "extension"), so such a Document entry
gets the TOC entry `"p. {n} — "` with an empty title, and each of its page
overlays carries the empty name. -/
theorem claim_C10 (path : List Char) (rs : Bool) (fs : List Char → Option Nat)
    (duplex : Bool) (st : CollateState) (m : Nat)
    (hnd : ('.' : Char) ∉ path) (hat : pyStartsWith path "@".data = false)
    (hne : path ≠ []) (hfs : fs path = some m) :
    get_pretty_name path rs = [] ∧
    (collateStep fs duplex st path).toc =
      st.toc ++ [toc_label (st.cur_page + 1) []] ∧
    (collateStep fs duplex st path).out =
      st.out ++ (List.range m).map (fun i =>
        OutPage.doc path i (add_overlay [] (st.cur_page + i + 1))) := by
  have hp := get_pretty_name_no_dot path true hnd
  rw [collateStep_doc fs duplex st path m hat hne hfs]
  refine ⟨get_pretty_name_no_dot path rs hnd, ?_, ?_⟩
  · show st.toc ++ [toc_label (st.cur_page + 1) (get_pretty_name path true)] =
      st.toc ++ [toc_label (st.cur_page + 1) []]
    rw [hp]
  · show st.out ++ (List.range m).map (fun i =>
        OutPage.doc path i (add_overlay (get_pretty_name path true)
          (st.cur_page + i + 1))) =
      st.out ++ (List.range m).map (fun i =>
        OutPage.doc path i (add_overlay [] (st.cur_page + i + 1)))
    rw [hp]

/-- Witness for C10 on a one-page extensionless document. -/
theorem claim_C10_witness :
    get_pretty_name "noext".data true = ([] : List Char) ∧
    (collateStep (fun q => if q = "noext".data then some 1 else none) false
      ⟨[], 1, []⟩ "noext".data).toc = [toc_label 2 []] ∧
    (collateStep (fun q => if q = "noext".data then some 1 else none) false
      ⟨[], 1, []⟩ "noext".data).out =
      [OutPage.doc "noext".data 0 (add_overlay [] 2)] := by
  have h := claim_C10 "noext".data true
    (fun q => if q = "noext".data then some 1 else none) false ⟨[], 1, []⟩ 1
    (by decide) (by decide) (by decide) (by decide)
  refine ⟨h.1, ?_, ?_⟩
  · rw [h.2.1]
    decide
  · rw [h.2.2]
    decide
